import Mathlib

/-!
# Verification of the OpenAPI → Orbit schema transformer

A shallow embedding of `src/index.js` (class `OrbitSchemaFromOpenApi`).

JavaScript objects are modelled as insertion-ordered association lists
(`Obj α`) whose keys stay unique because insertion (`objSet`) overwrites in
place, exactly like a JS property assignment.  A member read that may yield
`undefined` is an `Option`; accessing a member *of* `undefined` throws a
`TypeError`, modelled by `Except String`.  Promise-returning code is modelled
by its settlement outcome (`POutcome`).
-/

set_option autoImplicit false

namespace OrbitSchema

universe u

/-- A JavaScript object: an insertion-ordered association list.  Keys are
unique in any object built by `objSet` from `[]`, as in JS. -/
abbrev Obj (α : Type u) := List (String × α)

/-- JS property assignment `o[k] = v`: overwrites in place if `k` is already a
key (keeping its position), otherwise appends. -/
def objSet {α : Type u} (o : Obj α) (k : String) (v : α) : Obj α :=
  match o with
  | [] => [(k, v)]
  | (k₁, v₁) :: rest => if k₁ = k then (k, v) :: rest else (k₁, v₁) :: objSet rest k v

/-- `Object.keys(o)`, in insertion order. -/
def objKeys {α : Type u} (o : Obj α) : List String := o.map Prod.fst

/-- JS property read `o[k]`: `none` is `undefined`. -/
def objGet {α : Type u} (o : Obj α) (k : String) : Option α :=
  match o with
  | [] => none
  | (k₁, v) :: rest => if k₁ = k then some v else objGet rest k

/-- Accessing a member of a possibly-`undefined` value: throws `TypeError`
when the value is `undefined`. -/
def jsMember {α : Type u} (o : Option α) : Except String α :=
  match o with
  | some a => Except.ok a
  | none => Except.error "TypeError"

/-! ## Filter configuration (the `options` argument) -/

/-- `options.whitelist`. -/
structure Whitelist where
  resources : Option (List String)
deriving DecidableEq, Repr

/-- `options.blacklist`. -/
structure Blacklist where
  attributes : Option (List String)
  relationships : Option (List String)
deriving DecidableEq, Repr

/-- The filter configuration passed to `convertToOrbit` / `serialize`. -/
structure Options where
  whitelist : Option Whitelist
  blacklist : Option Blacklist
deriving DecidableEq, Repr

/-- `options.whitelist && options.whitelist.resources
&& options.whitelist.resources.indexOf(type) < 0` — the guard in
`convertToOrbit` that skips a type.  A JS array is truthy even when empty. -/
def whitelistExcludes (options : Options) (t : String) : Bool :=
  match options.whitelist with
  | none => false
  | some w =>
    match w.resources with
    | none => false
    | some l => !(l.contains t)

/-- `options.blacklist && options.blacklist.attributes
&& options.blacklist.attributes.indexOf(prop) >= 0`. -/
def attrBlacklisted (options : Options) (prop : String) : Bool :=
  match options.blacklist with
  | none => false
  | some b =>
    match b.attributes with
    | none => false
    | some l => l.contains prop

/-- `options.blacklist && options.blacklist.relationships
&& options.blacklist.relationships.indexOf(prop) >= 0`. -/
def relBlacklisted (options : Options) (prop : String) : Bool :=
  match options.blacklist with
  | none => false
  | some b =>
    match b.relationships with
    | none => false
    | some l => l.contains prop

/-! ## Input document shape (the fields `serialize`/`convertToOrbit` access) -/

/-- An attribute schema: the code reads only `propSchema.type`
(`undefined` when absent — no throw). -/
structure AttrSchema where
  type : Option String
deriving DecidableEq, Repr

/-- `schema.properties.attributes`: the code reads its `.properties`. -/
structure AttrsObj where
  properties : Option (Obj AttrSchema)
deriving DecidableEq, Repr

/-- The object at `....properties.type` inside a relationship data reference:
the code reads its `.enum` and indexes `[0]`. -/
structure EnumObj where
  enum : Option (List String)
deriving DecidableEq, Repr

/-- `data.properties` or `data.items.properties`: the code reads `.type`. -/
structure DataProps where
  type : Option EnumObj
deriving DecidableEq, Repr

/-- `data.items`: the code reads `.properties`. -/
structure ItemsObj where
  properties : Option DataProps
deriving DecidableEq, Repr

/-- `propSchema.properties.data`: the code reads `.type` (compared with
`'array'`), `.items` and `.properties`. -/
structure DataObj where
  type : Option String
  items : Option ItemsObj
  properties : Option DataProps
deriving DecidableEq, Repr

/-- `propSchema.properties` for a relationship: the code reads `.data`. -/
structure RelProps where
  data : Option DataObj
deriving DecidableEq, Repr

/-- A relationship schema `propSchema`: the code reads `.properties`. -/
structure RelSchema where
  properties : Option RelProps
deriving DecidableEq, Repr

/-- `schema.properties.relationships`: the code reads its `.properties`. -/
structure RelsObj where
  properties : Option (Obj RelSchema)
deriving DecidableEq, Repr

/-- `schema.properties` of a resource definition. -/
structure ResourceProps where
  attributes : Option AttrsObj
  relationships : Option RelsObj
deriving DecidableEq, Repr

/-- One resource-type definition (`entities[type]`). -/
structure ResourceDef where
  properties : Option ResourceProps
deriving DecidableEq, Repr

/-- The (already parsed) response body: the code reads `body.definitions`. -/
structure Document where
  definitions : Option (Obj ResourceDef)
deriving DecidableEq, Repr

/-! ## Output shape -/

/-- One entry of the output attribute map: `{ type: propSchema.type }`. -/
structure AttrOut where
  type : Option String
deriving DecidableEq, Repr

/-- One entry of the output relationship map:
`{ type: 'hasOne'|'hasMany', model: ... }`; `model` is `none` when the code
stores `undefined` (empty `enum`). -/
structure RelOut where
  type : String
  model : Option String
deriving DecidableEq, Repr

/-- One output model: the value assigned to `schema[resource]`. -/
structure ModelOut where
  attributes : Option (Obj AttrOut)
  relationships : Option (Obj RelOut)
deriving DecidableEq, Repr

/-- The value returned by `convertToOrbit`: `{ models: orbitSchema }`. -/
structure OrbitOut where
  models : Obj ModelOut
deriving DecidableEq, Repr

/-! ## `serialize(schema, options)` -/

/-- The attribute loop of `serialize` (`Object.keys(...).forEach`): skips a
blacklisted name, otherwise assigns `{ type: propSchema.type }` under the same
name.  No access in this loop can throw. -/
def serializeAttrs (options : Options) : Obj AttrOut → Obj AttrSchema → Obj AttrOut
  | out, [] => out
  | out, (prop, s) :: rest =>
    if attrBlacklisted options prop then serializeAttrs options out rest
    else serializeAttrs options (objSet out prop ⟨s.type⟩) rest

/-- The body of the relationship loop of `serialize` for one `propSchema`:
`propSchema.properties.data.type === 'array'` selects `hasMany` with
`...data.items.properties.type.enum[0]`, otherwise `hasOne` with
`...data.properties.type.enum[0]`.  Each access of a member of `undefined`
throws; `enum[0]` on an empty array is `undefined` (no throw). -/
def serializeRel (propSchema : RelSchema) : Except String RelOut :=
  match jsMember propSchema.properties with
  | Except.error e => Except.error e
  | Except.ok pp =>
    match jsMember pp.data with
    | Except.error e => Except.error e
    | Except.ok data =>
      if data.type = some "array" then
        match jsMember data.items with
        | Except.error e => Except.error e
        | Except.ok items =>
          match jsMember items.properties with
          | Except.error e => Except.error e
          | Except.ok ip =>
            match jsMember ip.type with
            | Except.error e => Except.error e
            | Except.ok tobj =>
              match jsMember tobj.enum with
              | Except.error e => Except.error e
              | Except.ok l => Except.ok ⟨"hasMany", l.get? 0⟩
      else
        match jsMember data.properties with
        | Except.error e => Except.error e
        | Except.ok dp =>
          match jsMember dp.type with
          | Except.error e => Except.error e
          | Except.ok tobj =>
            match jsMember tobj.enum with
            | Except.error e => Except.error e
            | Except.ok l => Except.ok ⟨"hasOne", l.get? 0⟩

/-- The relationship loop of `serialize`: skips blacklisted names; a thrown
`TypeError` aborts the whole call. -/
def serializeRels (options : Options) : Obj RelOut → Obj RelSchema → Except String (Obj RelOut)
  | out, [] => Except.ok out
  | out, (prop, s) :: rest =>
    if relBlacklisted options prop then serializeRels options out rest
    else
      match serializeRel s with
      | Except.error e => Except.error e
      | Except.ok r => serializeRels options (objSet out prop r) rest

/-- The `if (schema.properties.attributes)` block of `serialize`: the
attributes sub-map is created iff `schema.properties.attributes` is present
(a present-but-empty or fully blacklisted map stays present and empty). -/
def serializeAttrStep (options : Options) (props : ResourceProps) :
    Except String (Option (Obj AttrOut)) :=
  match props.attributes with
  | none => Except.ok none
  | some attrs =>
    match jsMember attrs.properties with
    | Except.error e => Except.error e
    | Except.ok aprops => Except.ok (some (serializeAttrs options [] aprops))

/-- The `if (schema.properties.relationships)` block of `serialize`. -/
def serializeRelStep (options : Options) (props : ResourceProps) :
    Except String (Option (Obj RelOut)) :=
  match props.relationships with
  | none => Except.ok none
  | some rels =>
    match jsMember rels.properties with
    | Except.error e => Except.error e
    | Except.ok rprops =>
      match serializeRels options [] rprops with
      | Except.error e => Except.error e
      | Except.ok relsOut => Except.ok (some relsOut)

/-- `serialize(schema, options)`: the attribute block runs first, then the
relationship block; a `TypeError` in either aborts the call. -/
def serialize (schema : ResourceDef) (options : Options) : Except String ModelOut :=
  match jsMember schema.properties with
  | Except.error e => Except.error e
  | Except.ok props =>
    match serializeAttrStep options props with
    | Except.error e => Except.error e
    | Except.ok attrsOut =>
      match serializeRelStep options props with
      | Except.error e => Except.error e
      | Except.ok relsOut => Except.ok ⟨attrsOut, relsOut⟩

/-! ## `convertToOrbit(body, options)` -/

/-- JS `type.replace(':', '--')` on the character list of the type name: with
a *string* pattern, `String.prototype.replace` rewrites only the FIRST
occurrence. -/
def jsReplaceColon : List Char → List Char
  | [] => []
  | c :: rest => if c = ':' then '-' :: '-' :: rest else c :: jsReplaceColon rest

/-- `type.replace(':', '--')` on strings. -/
def replaceColonFirst (s : String) : String := ⟨jsReplaceColon s.data⟩

/-- The spec's words, for comparison with the code: the type name with EVERY
occurrence of the namespace separator replaced by a double hyphen. -/
def specReplaceEveryColon : List Char → List Char
  | [] => []
  | c :: rest =>
    if c = ':' then '-' :: '-' :: specReplaceEveryColon rest
    else c :: specReplaceEveryColon rest

/-- The spec's every-occurrence rewrite, on strings. -/
def specReplaceEveryColonStr (s : String) : String := ⟨specReplaceEveryColon s.data⟩

/-- The `reduce` of `convertToOrbit`: left fold over the declared types; a
type excluded by the whitelist is skipped, otherwise
`schema[type.replace(':', '--')] = serialize(entities[type], options)`.
A `TypeError` thrown by `serialize` aborts the whole call. -/
def convertFold (options : Options) :
    Obj ModelOut → Obj ResourceDef → Except String (Obj ModelOut)
  | schema, [] => Except.ok schema
  | schema, (t, d) :: rest =>
    if whitelistExcludes options t then convertFold options schema rest
    else
      match serialize d options with
      | Except.error e => Except.error e
      | Except.ok s => convertFold options (objSet schema (replaceColonFirst t) s) rest

/-- `convertToOrbit(body, options)` on an already-parsed body:
`entities = body.definitions`, then the fold above, then `{ models: ... }`.
(The `typeof body === 'string'` branch, which first parses JSON text, is not
modelled: we start from the parsed structure the two branches agree on.) -/
def convertToOrbit (body : Document) (options : Options) : Except String OrbitOut :=
  match jsMember body.definitions with
  | Except.error e => Except.error e
  | Except.ok entities =>
    match convertFold options [] entities with
    | Except.error e => Except.error e
    | Except.ok m => Except.ok ⟨m⟩

/-! ## `generate()` — promise-settlement semantics

`generate` returns `new Promise((resolve, reject) => ...)` whose executor
chains `oAuth.getToken().then(...)` with NO rejection handler and never calls
`reject`.  We model a promise by its settlement outcome and `generate` by the
outcome of the promise it returns, as a function of the outcomes of its two
collaborators (token acquisition, then document fetch). -/

/-- The settlement outcome of a JS promise. -/
inductive POutcome (ε : Type) (α : Type u) where
  | resolved : α → POutcome ε α
  | rejected : ε → POutcome ε α
  | pending : POutcome ε α
deriving DecidableEq, Repr

/-- Outcome of the promise returned by `generate()`, given the outcome of
`oAuth.getToken()` and of the `axios.get` document fetch:

* the executor never calls `reject`, and the `getToken()` chain has no
  rejection handler, so a token failure leaves the outer promise pending
  (the rejection is unhandled);
* a fetch failure reaches `.catch(error => console.log(error.stack))`, which
  only logs, so the outer promise again stays pending;
* on a fetched body, `resolve(convertToOrbit(response.data, options))` runs
  inside the `.then` callback, so a `TypeError` thrown by `convertToOrbit` is
  caught by that same `.catch` and the outer promise stays pending. -/
def generate {ε : Type} (tokenResult : POutcome ε Unit)
    (fetchResult : POutcome ε Document) (options : Options) :
    POutcome ε OrbitOut :=
  match tokenResult with
  | POutcome.pending => POutcome.pending
  | POutcome.rejected _ => POutcome.pending
  | POutcome.resolved _ =>
    match fetchResult with
    | POutcome.pending => POutcome.pending
    | POutcome.rejected _ => POutcome.pending
    | POutcome.resolved body =>
      match convertToOrbit body options with
      | Except.ok out => POutcome.resolved out
      | Except.error _ => POutcome.pending

/-! ## Concrete inputs (used to instantiate the theorems below) -/

/-- No filters configured. -/
def optsNone : Options := ⟨none, none⟩

/-- Filter blacklisting the attribute `title`. -/
def optsBlTitle : Options := ⟨none, some ⟨some ["title"], none⟩⟩

/-- Filter whitelisting only the resource `node:article`. -/
def optsWl : Options := ⟨some ⟨some ["node:article"]⟩, none⟩

/-- Filter whose whitelist object is present with no `resources` list. -/
def optsWlEmpty : Options := ⟨some ⟨none⟩, none⟩

/-- Definition of a resource with one string attribute `title`. -/
def artDef : ResourceDef := ⟨some ⟨some ⟨some [("title", ⟨some "string"⟩)]⟩, none⟩⟩

/-- A document declaring just `node:article`. -/
def doc1 : Document := ⟨some [("node:article", artDef)]⟩

/-- A document declaring `node:article` and `node:page`. -/
def docTwo : Document := ⟨some [("node:article", artDef), ("node:page", artDef)]⟩

/-- A document whose single type name holds two namespace separators. -/
def docColons : Document := ⟨some [("a:b:c", ⟨some ⟨none, none⟩⟩)]⟩

/-- Relationship `author`: single reference with target enumeration `["user"]`. -/
def relAuthor : RelSchema := ⟨some ⟨some ⟨none, none, some ⟨some ⟨some ["user"]⟩⟩⟩⟩⟩

/-- Relationship `comments`: collection reference with item target enumeration
`["comment"]`. -/
def relComments : RelSchema :=
  ⟨some ⟨some ⟨some "array", some ⟨some ⟨some ⟨some ["comment"]⟩⟩⟩, none⟩⟩⟩

/-- A resource definition with the two relationships above. -/
def defWithRels : ResourceDef :=
  ⟨some ⟨none, some ⟨some [("author", relAuthor), ("comments", relComments)]⟩⟩⟩

/-- Relationship whose target-type enumeration is present but EMPTY. -/
def relEmptyEnum : RelSchema := ⟨some ⟨some ⟨none, none, some ⟨some ⟨some []⟩⟩⟩⟩⟩

/-- Relationship whose target-type enumeration is MISSING. -/
def relNoEnum : RelSchema := ⟨some ⟨some ⟨none, none, some ⟨some ⟨none⟩⟩⟩⟩⟩

/-- A resource definition whose one relationship has an empty enumeration. -/
def defEmptyEnum : ResourceDef := ⟨some ⟨none, some ⟨some [("author", relEmptyEnum)]⟩⟩⟩

/-- A document whose type `t` has one relationship with an empty enumeration. -/
def docEmptyEnum : Document := ⟨some [("t", defEmptyEnum)]⟩

/-- A resource definition whose one relationship lacks the enumeration. -/
def defNoEnum : ResourceDef := ⟨some ⟨none, some ⟨some [("author", relNoEnum)]⟩⟩⟩

/-- Definition of a resource with one string attribute `body`. -/
def bodyAttrDef : ResourceDef := ⟨some ⟨some ⟨some [("body", ⟨some "string"⟩)]⟩, none⟩⟩

/-- Filter blacklisting the relationship `comments`. -/
def optsBlRel : Options := ⟨none, some ⟨none, some ["comments"]⟩⟩

/-- A document whose type `t` has the relationships `author` and `comments`. -/
def docRels : Document := ⟨some [("t", defWithRels)]⟩

/-- Expected output for `doc1`/`docTwo` runs that emit only `node--article`. -/
def outArticleTitle : OrbitOut :=
  ⟨[("node--article", ⟨some [("title", ⟨some "string"⟩)], none⟩)]⟩

/-- Expected output for `doc1` with attribute `title` blacklisted: the
attributes sub-map is present and empty. -/
def outArtBlTitle : OrbitOut := ⟨[("node--article", ⟨some [], none⟩)]⟩

/-- Expected output for `docColons`: only the FIRST colon is rewritten. -/
def outColons : OrbitOut := ⟨[("a--b:c", ⟨none, none⟩)]⟩

/-- Expected output for `docEmptyEnum`: the transformation succeeds and the
relationship is emitted with an undefined model. -/
def outEmptyEnum : OrbitOut := ⟨[("t", ⟨none, some [("author", ⟨"hasOne", none⟩)]⟩)]⟩

/-- Expected relationship map for `defWithRels` with no filters. -/
def relsOutBoth : Obj RelOut :=
  [("author", ⟨"hasOne", some "user"⟩), ("comments", ⟨"hasMany", some "comment"⟩)]

/-! ## Lemmas about the JS-object operations -/

theorem mem_objKeys {α : Type u} {o : Obj α} {k : String} :
    k ∈ objKeys o ↔ ∃ v, (k, v) ∈ o := by
  simp only [objKeys, List.mem_map]
  constructor
  · rintro ⟨⟨a, b⟩, hmem, rfl⟩
    exact ⟨b, hmem⟩
  · rintro ⟨v, hv⟩
    exact ⟨(k, v), hv, rfl⟩

theorem objKeys_objSet {α : Type u} {o : Obj α} {k k₁ : String} {v : α} :
    k₁ ∈ objKeys (objSet o k v) ↔ k₁ = k ∨ k₁ ∈ objKeys o := by
  induction o with
  | nil => simp [objSet, objKeys]
  | cons p rest ih =>
    obtain ⟨k₂, v₂⟩ := p
    by_cases h : k₂ = k
    · subst h
      simp [objSet, objKeys]
    · simp only [objSet, if_neg h, objKeys, List.map_cons, List.mem_cons] at ih ⊢
      rw [ih]
      tauto

theorem nodup_objKeys_objSet {α : Type u} {o : Obj α} {k : String} {v : α}
    (h : (objKeys o).Nodup) : (objKeys (objSet o k v)).Nodup := by
  induction o with
  | nil => simp [objSet, objKeys]
  | cons p rest ih =>
    obtain ⟨k₂, v₂⟩ := p
    simp only [objKeys, List.map_cons, List.nodup_cons] at h
    by_cases hk : k₂ = k
    · subst hk
      simpa [objSet, objKeys] using h
    · simp only [objSet, if_neg hk, objKeys, List.map_cons, List.nodup_cons]
      refine ⟨fun hmem => ?_, ih h.2⟩
      rcases objKeys_objSet.mp hmem with h₁ | h₁
      · exact hk h₁
      · exact h.1 h₁

theorem objGet_objSet_self {α : Type u} {o : Obj α} {k : String} {v : α} :
    objGet (objSet o k v) k = some v := by
  induction o with
  | nil => simp [objSet, objGet]
  | cons p rest ih =>
    obtain ⟨k₂, v₂⟩ := p
    by_cases h : k₂ = k
    · subst h
      simp [objSet, objGet]
    · simp [objSet, objGet, h, ih]

theorem objGet_objSet_ne {α : Type u} {o : Obj α} {k k₁ : String} {v : α}
    (h : k₁ ≠ k) : objGet (objSet o k v) k₁ = objGet o k₁ := by
  induction o with
  | nil =>
    simp only [objSet, objGet]
    rw [if_neg (Ne.symm h)]
  | cons p rest ih =>
    obtain ⟨k₂, v₂⟩ := p
    by_cases hk : k₂ = k
    · subst hk
      simp only [objSet, if_pos rfl, objGet]
      rw [if_neg (Ne.symm h), if_neg (Ne.symm h)]
    · simp only [objSet, if_neg hk, objGet]
      by_cases hq : k₂ = k₁
      · rw [if_pos hq, if_pos hq]
      · rw [if_neg hq, if_neg hq, ih]

theorem mem_objSet {α : Type u} {k : String} {v : α} {x : String × α} :
    ∀ (o : Obj α), x ∈ objSet o k v → x = (k, v) ∨ x ∈ o := by
  intro o
  induction o with
  | nil =>
    intro h
    simpa [objSet] using h
  | cons p rest ih =>
    obtain ⟨k₂, v₂⟩ := p
    intro h
    by_cases hk : k₂ = k
    · subst hk
      simp only [objSet, eq_self_iff_true, if_true, List.mem_cons] at h
      rcases h with h₂ | h₂
      · exact Or.inl h₂
      · exact Or.inr (List.mem_cons_of_mem _ h₂)
    · simp only [objSet, if_neg hk, List.mem_cons] at h
      rcases h with h₂ | h₂
      · exact Or.inr (by simp [h₂])
      · rcases ih h₂ with h₃ | h₃
        · exact Or.inl h₃
        · exact Or.inr (List.mem_cons_of_mem _ h₃)

/-! ## Lemmas about the attribute loop -/

theorem serializeAttrs_get_preserved {options : Options} :
    ∀ (l : Obj AttrSchema) (init : Obj AttrOut) (prop : String),
      prop ∉ objKeys l →
      objGet (serializeAttrs options init l) prop = objGet init prop := by
  intro l
  induction l with
  | nil =>
    intro init prop _
    rfl
  | cons p rest ih =>
    obtain ⟨p₁, s₁⟩ := p
    intro init prop hmem
    simp only [objKeys, List.map_cons, List.mem_cons] at hmem
    push_neg at hmem
    by_cases hbl : attrBlacklisted options p₁ = true
    · rw [serializeAttrs, if_pos hbl]
      exact ih init prop (by simpa [objKeys] using hmem.2)
    · rw [serializeAttrs, if_neg hbl]
      rw [ih _ prop (by simpa [objKeys] using hmem.2)]
      exact objGet_objSet_ne hmem.1

theorem serializeAttrs_not_mem {options : Options} :
    ∀ (l : Obj AttrSchema) (init : Obj AttrOut) (prop : String),
      attrBlacklisted options prop = true →
      prop ∉ objKeys init →
      prop ∉ objKeys (serializeAttrs options init l) := by
  intro l
  induction l with
  | nil =>
    intro init prop _ hinit
    exact hinit
  | cons p rest ih =>
    obtain ⟨p₁, s₁⟩ := p
    intro init prop hbl hinit
    by_cases hbl₁ : attrBlacklisted options p₁ = true
    · rw [serializeAttrs, if_pos hbl₁]
      exact ih init prop hbl hinit
    · rw [serializeAttrs, if_neg hbl₁]
      refine ih _ prop hbl ?_
      intro hmem
      rcases objKeys_objSet.mp hmem with h₁ | h₁
      · rw [h₁] at hbl
        exact hbl₁ hbl
      · exact hinit h₁

theorem serializeAttrs_get {options : Options} :
    ∀ (l : Obj AttrSchema) (init : Obj AttrOut) (prop : String) (s : AttrSchema),
      (objKeys l).Nodup → (prop, s) ∈ l →
      attrBlacklisted options prop = false →
      objGet (serializeAttrs options init l) prop = some ⟨s.type⟩ := by
  intro l
  induction l with
  | nil =>
    intro init prop s _ hmem
    cases hmem
  | cons p rest ih =>
    obtain ⟨p₁, s₁⟩ := p
    intro init prop s hnd hmem hbl
    simp only [objKeys, List.map_cons, List.nodup_cons] at hnd
    rcases List.mem_cons.mp hmem with heq | hmem₁
    · injection heq with hp hs
      subst hp
      subst hs
      rw [serializeAttrs, if_neg (by simp [hbl])]
      rw [serializeAttrs_get_preserved rest _ prop (by simpa [objKeys] using hnd.1)]
      exact objGet_objSet_self
    · have hnd₂ : (objKeys rest).Nodup := hnd.2
      by_cases hbl₁ : attrBlacklisted options p₁ = true
      · rw [serializeAttrs, if_pos hbl₁]
        exact ih init prop s hnd₂ hmem₁ hbl
      · rw [serializeAttrs, if_neg hbl₁]
        exact ih _ prop s hnd₂ hmem₁ hbl

/-! ## Lemmas about the relationship loop -/

theorem serializeRels_get_preserved {options : Options} :
    ∀ (l : Obj RelSchema) (init : Obj RelOut) (out : Obj RelOut) (prop : String),
      serializeRels options init l = Except.ok out →
      prop ∉ objKeys l →
      objGet out prop = objGet init prop := by
  intro l
  induction l with
  | nil =>
    intro init out prop h _
    cases h
    rfl
  | cons p rest ih =>
    obtain ⟨p₁, s₁⟩ := p
    intro init out prop h hmem
    simp only [objKeys, List.map_cons, List.mem_cons] at hmem
    push_neg at hmem
    by_cases hbl : relBlacklisted options p₁ = true
    · rw [serializeRels, if_pos hbl] at h
      exact ih init out prop h (by simpa [objKeys] using hmem.2)
    · rw [serializeRels, if_neg hbl] at h
      cases hser : serializeRel s₁ with
      | error e =>
        rw [hser] at h
        cases h
      | ok r =>
        rw [hser] at h
        rw [ih _ out prop h (by simpa [objKeys] using hmem.2)]
        exact objGet_objSet_ne hmem.1

theorem serializeRels_not_mem {options : Options} :
    ∀ (l : Obj RelSchema) (init : Obj RelOut) (out : Obj RelOut) (prop : String),
      serializeRels options init l = Except.ok out →
      relBlacklisted options prop = true →
      prop ∉ objKeys init →
      prop ∉ objKeys out := by
  intro l
  induction l with
  | nil =>
    intro init out prop h _ hinit
    cases h
    exact hinit
  | cons p rest ih =>
    obtain ⟨p₁, s₁⟩ := p
    intro init out prop h hbl hinit
    by_cases hbl₁ : relBlacklisted options p₁ = true
    · rw [serializeRels, if_pos hbl₁] at h
      exact ih init out prop h hbl hinit
    · rw [serializeRels, if_neg hbl₁] at h
      cases hser : serializeRel s₁ with
      | error e =>
        rw [hser] at h
        cases h
      | ok r =>
        rw [hser] at h
        refine ih _ out prop h hbl ?_
        intro hmem
        rcases objKeys_objSet.mp hmem with h₁ | h₁
        · rw [h₁] at hbl
          exact hbl₁ hbl
        · exact hinit h₁

theorem serializeRels_get {options : Options} :
    ∀ (l : Obj RelSchema) (init : Obj RelOut) (out : Obj RelOut) (prop : String) (s : RelSchema),
      serializeRels options init l = Except.ok out →
      (objKeys l).Nodup → (prop, s) ∈ l →
      relBlacklisted options prop = false →
      ∃ r, serializeRel s = Except.ok r ∧ objGet out prop = some r := by
  intro l
  induction l with
  | nil =>
    intro init out prop s _ _ hmem
    cases hmem
  | cons p rest ih =>
    obtain ⟨p₁, s₁⟩ := p
    intro init out prop s h hnd hmem hbl
    simp only [objKeys, List.map_cons, List.nodup_cons] at hnd
    rcases List.mem_cons.mp hmem with heq | hmem₁
    · injection heq with hp hs
      subst hp
      subst hs
      rw [serializeRels, if_neg (by simp [hbl])] at h
      cases hser : serializeRel s with
      | error e =>
        rw [hser] at h
        cases h
      | ok r =>
        rw [hser] at h
        refine ⟨r, rfl, ?_⟩
        rw [serializeRels_get_preserved rest _ out prop h
          (by simpa [objKeys] using hnd.1)]
        exact objGet_objSet_self
    · have hnd₂ : (objKeys rest).Nodup := hnd.2
      by_cases hbl₁ : relBlacklisted options p₁ = true
      · rw [serializeRels, if_pos hbl₁] at h
        exact ih init out prop s h hnd₂ hmem₁ hbl
      · rw [serializeRels, if_neg hbl₁] at h
        cases hser : serializeRel s₁ with
        | error e =>
          rw [hser] at h
          cases h
        | ok r =>
          rw [hser] at h
          exact ih _ out prop s h hnd₂ hmem₁ hbl

theorem serializeRels_error {options : Options} :
    ∀ (l : Obj RelSchema) (prop : String) (s : RelSchema) (e : String),
      (prop, s) ∈ l →
      relBlacklisted options prop = false →
      serializeRel s = Except.error e →
      ∀ init, ∃ e₁, serializeRels options init l = Except.error e₁ := by
  intro l
  induction l with
  | nil =>
    intro prop s e hmem
    cases hmem
  | cons p rest ih =>
    obtain ⟨p₁, s₁⟩ := p
    intro prop s e hmem hbl hser init
    rcases List.mem_cons.mp hmem with heq | hmem₁
    · injection heq with hp hs
      subst hp
      subst hs
      rw [serializeRels, if_neg (by simp [hbl]), hser]
      exact ⟨e, rfl⟩
    · by_cases hbl₁ : relBlacklisted options p₁ = true
      · rw [serializeRels, if_pos hbl₁]
        exact ih prop s e hmem₁ hbl hser init
      · rw [serializeRels, if_neg hbl₁]
        cases hser₁ : serializeRel s₁ with
        | error e₂ => exact ⟨e₂, rfl⟩
        | ok r => exact ih prop s e hmem₁ hbl hser _

/-! ## Lemmas about `serialize` -/

theorem serialize_ok_parts {schema : ResourceDef} {options : Options} {out : ModelOut}
    (h : serialize schema options = Except.ok out) :
    ∃ props, schema.properties = some props ∧
      serializeAttrStep options props = Except.ok out.attributes ∧
      serializeRelStep options props = Except.ok out.relationships := by
  unfold serialize at h
  cases hp : schema.properties with
  | none =>
    rw [hp] at h
    cases h
  | some props =>
    rw [hp] at h
    simp only [jsMember] at h
    cases hA : serializeAttrStep options props with
    | error e =>
      rw [hA] at h
      cases h
    | ok a =>
      rw [hA] at h
      cases hR : serializeRelStep options props with
      | error e =>
        rw [hR] at h
        cases h
      | ok r =>
        rw [hR] at h
        cases h
        exact ⟨props, rfl, hA, hR⟩

theorem serializeAttrStep_ok {options : Options} {props : ResourceProps}
    {aOut : Option (Obj AttrOut)}
    (h : serializeAttrStep options props = Except.ok aOut) :
    (props.attributes = none ∧ aOut = none) ∨
      ∃ attrs aprops, props.attributes = some attrs ∧ attrs.properties = some aprops ∧
        aOut = some (serializeAttrs options [] aprops) := by
  cases ha : props.attributes with
  | none =>
    simp only [serializeAttrStep, ha] at h
    cases h
    exact Or.inl ⟨rfl, rfl⟩
  | some attrs =>
    cases hap : attrs.properties with
    | none =>
      simp only [serializeAttrStep, ha, hap, jsMember] at h
      cases h
    | some aprops =>
      simp only [serializeAttrStep, ha, hap, jsMember] at h
      cases h
      exact Or.inr ⟨attrs, aprops, rfl, hap, rfl⟩

theorem serializeRelStep_ok {options : Options} {props : ResourceProps}
    {rOut : Option (Obj RelOut)}
    (h : serializeRelStep options props = Except.ok rOut) :
    (props.relationships = none ∧ rOut = none) ∨
      ∃ rels rprops relsOut, props.relationships = some rels ∧
        rels.properties = some rprops ∧
        serializeRels options [] rprops = Except.ok relsOut ∧ rOut = some relsOut := by
  cases hr : props.relationships with
  | none =>
    simp only [serializeRelStep, hr] at h
    cases h
    exact Or.inl ⟨rfl, rfl⟩
  | some rels =>
    cases hrp : rels.properties with
    | none =>
      simp only [serializeRelStep, hr, hrp, jsMember] at h
      cases h
    | some rprops =>
      cases hss : serializeRels options [] rprops with
      | error e =>
        simp only [serializeRelStep, hr, hrp, jsMember, hss] at h
        cases h
      | ok relsOut =>
        simp only [serializeRelStep, hr, hrp, jsMember, hss] at h
        cases h
        exact Or.inr ⟨rels, rprops, relsOut, rfl, hrp, hss, rfl⟩

theorem serialize_error_of_relsError {schema : ResourceDef} {options : Options}
    {props : ResourceProps} {rels : RelsObj} {rprops : Obj RelSchema} {e : String}
    (hp : schema.properties = some props) (hr : props.relationships = some rels)
    (hrp : rels.properties = some rprops)
    (hre : serializeRels options [] rprops = Except.error e) :
    ∃ e₁, serialize schema options = Except.error e₁ := by
  cases hA : serializeAttrStep options props with
  | error e₂ =>
    refine ⟨e₂, ?_⟩
    simp only [serialize, hp, jsMember, hA]
  | ok a =>
    refine ⟨e, ?_⟩
    simp only [serialize, hp, jsMember, hA, serializeRelStep, hr, hrp, hre]

/-! ## Lemmas computing `serializeRel` from the shape of the descriptor -/

theorem serializeRel_hasMany {rs : RelSchema} {pp : RelProps} {data : DataObj}
    {items : ItemsObj} {ip : DataProps} {tobj : EnumObj} {l : List String}
    (hpp : rs.properties = some pp) (hd : pp.data = some data)
    (ht : data.type = some "array") (hi : data.items = some items)
    (hip : items.properties = some ip) (hit : ip.type = some tobj)
    (he : tobj.enum = some l) :
    serializeRel rs = Except.ok ⟨"hasMany", l.get? 0⟩ := by
  simp [serializeRel, hpp, hd, jsMember, ht, hi, hip, hit, he]

theorem serializeRel_hasOne {rs : RelSchema} {pp : RelProps} {data : DataObj}
    {dp : DataProps} {tobj : EnumObj} {l : List String}
    (hpp : rs.properties = some pp) (hd : pp.data = some data)
    (ht : data.type ≠ some "array") (hdp : data.properties = some dp)
    (hit : dp.type = some tobj) (he : tobj.enum = some l) :
    serializeRel rs = Except.ok ⟨"hasOne", l.get? 0⟩ := by
  simp [serializeRel, hpp, hd, jsMember, ht, hdp, hit, he]

theorem serializeRel_error_hasMany {rs : RelSchema} {pp : RelProps} {data : DataObj}
    {items : ItemsObj} {ip : DataProps} {tobj : EnumObj}
    (hpp : rs.properties = some pp) (hd : pp.data = some data)
    (ht : data.type = some "array") (hi : data.items = some items)
    (hip : items.properties = some ip) (hit : ip.type = some tobj)
    (he : tobj.enum = none) :
    serializeRel rs = Except.error "TypeError" := by
  simp [serializeRel, hpp, hd, jsMember, ht, hi, hip, hit, he]

theorem serializeRel_error_hasOne {rs : RelSchema} {pp : RelProps} {data : DataObj}
    {dp : DataProps} {tobj : EnumObj}
    (hpp : rs.properties = some pp) (hd : pp.data = some data)
    (ht : data.type ≠ some "array") (hdp : data.properties = some dp)
    (hit : dp.type = some tobj) (he : tobj.enum = none) :
    serializeRel rs = Except.error "TypeError" := by
  simp [serializeRel, hpp, hd, jsMember, ht, hdp, hit, he]

/-! ## Lemmas about `convertFold` / `convertToOrbit` -/

theorem convertFold_keys {options : Options} :
    ∀ (l : Obj ResourceDef) (init out : Obj ModelOut),
      convertFold options init l = Except.ok out →
      ∀ k, k ∈ objKeys out ↔
        (k ∈ objKeys init ∨
          ∃ t d, (t, d) ∈ l ∧ whitelistExcludes options t = false ∧
            replaceColonFirst t = k) := by
  intro l
  induction l with
  | nil =>
    intro init out h k
    cases h
    simp
  | cons p rest ih =>
    obtain ⟨t, d⟩ := p
    intro init out h k
    by_cases hwl : whitelistExcludes options t = true
    · rw [convertFold, if_pos hwl] at h
      rw [ih init out h k]
      constructor
      · rintro (h₁ | ⟨t₁, d₁, hm, hx, hr⟩)
        · exact Or.inl h₁
        · exact Or.inr ⟨t₁, d₁, List.mem_cons_of_mem _ hm, hx, hr⟩
      · rintro (h₁ | ⟨t₁, d₁, hm, hx, hr⟩)
        · exact Or.inl h₁
        · rcases List.mem_cons.mp hm with heq | hm₁
          · injection heq with ht hd
            rw [ht] at hx
            rw [hx] at hwl
            cases hwl
          · exact Or.inr ⟨t₁, d₁, hm₁, hx, hr⟩
    · rw [convertFold, if_neg hwl] at h
      cases hser : serialize d options with
      | error e =>
        rw [hser] at h
        cases h
      | ok s =>
        rw [hser] at h
        rw [ih _ out h k]
        rw [Bool.not_eq_true] at hwl
        constructor
        · rintro (h₁ | ⟨t₁, d₁, hm, hx, hr⟩)
          · rcases objKeys_objSet.mp h₁ with h₂ | h₂
            · exact Or.inr ⟨t, d, List.mem_cons_self (t, d) rest, hwl, h₂.symm⟩
            · exact Or.inl h₂
          · exact Or.inr ⟨t₁, d₁, List.mem_cons_of_mem _ hm, hx, hr⟩
        · rintro (h₁ | ⟨t₁, d₁, hm, hx, hr⟩)
          · exact Or.inl (objKeys_objSet.mpr (Or.inr h₁))
          · rcases List.mem_cons.mp hm with heq | hm₁
            · injection heq with ht hd
              subst ht
              exact Or.inl (objKeys_objSet.mpr (Or.inl hr.symm))
            · exact Or.inr ⟨t₁, d₁, hm₁, hx, hr⟩

theorem convertFold_nodup {options : Options} :
    ∀ (l : Obj ResourceDef) (init out : Obj ModelOut),
      convertFold options init l = Except.ok out →
      (objKeys init).Nodup → (objKeys out).Nodup := by
  intro l
  induction l with
  | nil =>
    intro init out h hinit
    cases h
    exact hinit
  | cons p rest ih =>
    obtain ⟨t, d⟩ := p
    intro init out h hinit
    by_cases hwl : whitelistExcludes options t = true
    · rw [convertFold, if_pos hwl] at h
      exact ih init out h hinit
    · rw [convertFold, if_neg hwl] at h
      cases hser : serialize d options with
      | error e =>
        rw [hser] at h
        cases h
      | ok s =>
        rw [hser] at h
        exact ih _ out h (nodup_objKeys_objSet hinit)

theorem convertFold_mem {options : Options} :
    ∀ (l : Obj ResourceDef) (init out : Obj ModelOut) (k : String) (m : ModelOut),
      convertFold options init l = Except.ok out →
      (k, m) ∈ out →
      (k, m) ∈ init ∨ ∃ t d, (t, d) ∈ l ∧ serialize d options = Except.ok m := by
  intro l
  induction l with
  | nil =>
    intro init out k m h hmem
    cases h
    exact Or.inl hmem
  | cons p rest ih =>
    obtain ⟨t, d⟩ := p
    intro init out k m h hmem
    by_cases hwl : whitelistExcludes options t = true
    · rw [convertFold, if_pos hwl] at h
      rcases ih init out k m h hmem with h₁ | ⟨t₁, d₁, hm, hs⟩
      · exact Or.inl h₁
      · exact Or.inr ⟨t₁, d₁, List.mem_cons_of_mem _ hm, hs⟩
    · rw [convertFold, if_neg hwl] at h
      cases hser : serialize d options with
      | error e =>
        rw [hser] at h
        cases h
      | ok s =>
        rw [hser] at h
        rcases ih _ out k m h hmem with h₁ | ⟨t₁, d₁, hm, hs⟩
        · rcases mem_objSet _ h₁ with h₂ | h₂
          · injection h₂ with hk hm₂
            subst hm₂
            exact Or.inr ⟨t, d, List.mem_cons_self (t, d) rest, hser⟩
          · exact Or.inl h₂
        · exact Or.inr ⟨t₁, d₁, List.mem_cons_of_mem _ hm, hs⟩

theorem convertToOrbit_ok_parts {body : Document} {options : Options} {out : OrbitOut}
    (h : convertToOrbit body options = Except.ok out) :
    ∃ defs, body.definitions = some defs ∧
      convertFold options [] defs = Except.ok out.models := by
  unfold convertToOrbit at h
  cases hd : body.definitions with
  | none =>
    rw [hd] at h
    cases h
  | some defs =>
    rw [hd] at h
    simp only [jsMember] at h
    cases hf : convertFold options [] defs with
    | error e =>
      rw [hf] at h
      cases h
    | ok m =>
      rw [hf] at h
      cases h
      exact ⟨defs, rfl, hf⟩

/-! ## Lemmas about the colon rewrite -/

theorem jsReplaceColon_of_not_mem : ∀ (l : List Char), ':' ∉ l → jsReplaceColon l = l := by
  intro l
  induction l with
  | nil =>
    intro _
    rfl
  | cons c rest ih =>
    intro h
    simp only [List.mem_cons] at h
    push_neg at h
    rw [jsReplaceColon, if_neg (fun hc => h.1 hc.symm), ih h.2]

theorem jsReplaceColon_of_split :
    ∀ (a b : List Char), ':' ∉ a →
      jsReplaceColon (a ++ ':' :: b) = a ++ '-' :: '-' :: b := by
  intro a
  induction a with
  | nil =>
    intro b _
    rw [List.nil_append, jsReplaceColon, if_pos rfl, List.nil_append]
  | cons c rest ih =>
    intro b h
    simp only [List.mem_cons] at h
    push_neg at h
    rw [List.cons_append, jsReplaceColon, if_neg (fun hc => h.1 hc.symm),
      ih b h.2, List.cons_append]

theorem whitelistExcludes_false_iff {options : Options} {w : Whitelist}
    {wl : List String} (t : String)
    (hw : options.whitelist = some w) (hwr : w.resources = some wl) :
    whitelistExcludes options t = false ↔ t ∈ wl := by
  simp [whitelistExcludes, hw, hwr]

theorem whitelistExcludes_of_no_resources {options : Options} {w : Whitelist}
    (t : String) (hw : options.whitelist = some w) (hwr : w.resources = none) :
    whitelistExcludes options t = false := by
  simp [whitelistExcludes, hw, hwr]

/-! ## The claims -/

/-- C1: when a resource whitelist is configured, the output `models` mapping
has exactly the keys obtained from the whitelisted type names present in the
document (one key each, no duplicates), membership being tested on the
ORIGINAL type name before the colon rewrite; no non-whitelisted type
contributes a key. -/
theorem whitelist_exact_keys (body : Document) (options : Options) (w : Whitelist)
    (wl : List String) (defs : Obj ResourceDef) (out : OrbitOut)
    (hw : options.whitelist = some w) (hwr : w.resources = some wl)
    (hdefs : body.definitions = some defs)
    (hok : convertToOrbit body options = Except.ok out) :
    (∀ k, k ∈ objKeys out.models ↔
      ∃ t, t ∈ objKeys defs ∧ t ∈ wl ∧ replaceColonFirst t = k)
    ∧ (objKeys out.models).Nodup := by
  obtain ⟨defs₁, hd₁, hf⟩ := convertToOrbit_ok_parts hok
  rw [hdefs] at hd₁
  obtain rfl : defs = defs₁ := Option.some.inj hd₁
  constructor
  · intro k
    rw [convertFold_keys defs [] out.models hf k]
    constructor
    · rintro (h₁ | ⟨t, d, hm, hx, hr⟩)
      · cases h₁
      · exact ⟨t, mem_objKeys.mpr ⟨d, hm⟩,
          (whitelistExcludes_false_iff t hw hwr).mp hx, hr⟩
    · rintro ⟨t, ht, hwl, hr⟩
      obtain ⟨d, hd⟩ := mem_objKeys.mp ht
      exact Or.inr ⟨t, d, hd, (whitelistExcludes_false_iff t hw hwr).mpr hwl, hr⟩
  · exact convertFold_nodup defs [] out.models hf List.nodup_nil

/-- C1 witness: `docTwo` declares `node:article` and `node:page`; with
whitelist `["node:article"]` the output has exactly the key `node--article`. -/
theorem whitelist_exact_keys_witness :
    (("node--article" ∈ objKeys outArticleTitle.models ↔
      ∃ t, t ∈ objKeys [("node:article", artDef), ("node:page", artDef)] ∧
        t ∈ ["node:article"] ∧ replaceColonFirst t = "node--article")
      ∧ ("node--page" ∈ objKeys outArticleTitle.models ↔
      ∃ t, t ∈ objKeys [("node:article", artDef), ("node:page", artDef)] ∧
        t ∈ ["node:article"] ∧ replaceColonFirst t = "node--page"))
    ∧ (objKeys outArticleTitle.models).Nodup := by
  have H := whitelist_exact_keys docTwo optsWl ⟨some ["node:article"]⟩
    ["node:article"] [("node:article", artDef), ("node:page", artDef)]
    outArticleTitle rfl rfl rfl rfl
  exact ⟨⟨H.1 "node--article", H.1 "node--page"⟩, H.2⟩

/-- C2 counterexample: the document declaring the type `a:b:c` is emitted
under the key `a--b:c` — only the FIRST colon is rewritten — whereas the
claim's every-occurrence rewrite would give `a--b--c`. -/
theorem replace_every_colon_cex :
    convertToOrbit docColons optsNone = Except.ok outColons
    ∧ objKeys outColons.models = [replaceColonFirst "a:b:c"]
    ∧ replaceColonFirst "a:b:c" = "a--b:c"
    ∧ specReplaceEveryColonStr "a:b:c" = "a--b--c"
    ∧ ("a--b:c" : String) ≠ "a--b--c" :=
  ⟨rfl, rfl, rfl, rfl, by decide⟩

/-- C2 (amended): every emitted output key is the original type name with the
FIRST occurrence of the colon replaced by a double hyphen and no other
character changed (JS `String.prototype.replace` with a string pattern
rewrites only the first match); a name with no colon is unchanged. -/
theorem replace_colon_first_only (body : Document) (options : Options)
    (defs : Obj ResourceDef) (out : OrbitOut) (t : String) (d : ResourceDef)
    (hdefs : body.definitions = some defs)
    (hok : convertToOrbit body options = Except.ok out)
    (hmem : (t, d) ∈ defs) (hincl : whitelistExcludes options t = false) :
    replaceColonFirst t ∈ objKeys out.models
    ∧ (∀ a b : List Char, ':' ∉ a → t.data = a ++ ':' :: b →
        (replaceColonFirst t).data = a ++ '-' :: '-' :: b)
    ∧ (':' ∉ t.data → replaceColonFirst t = t) := by
  obtain ⟨defs₁, hd₁, hf⟩ := convertToOrbit_ok_parts hok
  rw [hdefs] at hd₁
  obtain rfl : defs = defs₁ := Option.some.inj hd₁
  refine ⟨?_, ?_, ?_⟩
  · exact (convertFold_keys defs [] out.models hf (replaceColonFirst t)).mpr
      (Or.inr ⟨t, d, hmem, hincl, rfl⟩)
  · intro a b ha hsplit
    have hdata : (replaceColonFirst t).data = jsReplaceColon t.data := rfl
    rw [hdata, hsplit]
    exact jsReplaceColon_of_split a b ha
  · intro hnc
    have hdata : replaceColonFirst t = ⟨jsReplaceColon t.data⟩ := rfl
    rw [hdata, jsReplaceColon_of_not_mem t.data hnc]

/-- C2 witness: for the type `a:b:c` (whose data splits as
`['a'] ++ ':' :: ['b', ':', 'c']`) the emitted key is present and its data is
`['a'] ++ '-' :: '-' :: ['b', ':', 'c']`, i.e. `a--b:c`. -/
theorem replace_colon_first_only_witness :
    replaceColonFirst "a:b:c" ∈ objKeys outColons.models
    ∧ (replaceColonFirst "a:b:c").data = ['a'] ++ '-' :: '-' :: ['b', ':', 'c'] := by
  have H := replace_colon_first_only docColons optsNone
    [("a:b:c", ⟨some ⟨none, none⟩⟩)] outColons "a:b:c" ⟨some ⟨none, none⟩⟩
    rfl rfl (by decide) rfl
  exact ⟨H.1, H.2.1 ['a'] ['b', ':', 'c'] (by decide) (by decide)⟩

/-- C10: when the whitelist object is configured without a `resources` list,
no filtering happens: the output has exactly one key per declared type. -/
theorem whitelist_no_resources_all_types (body : Document) (options : Options)
    (w : Whitelist) (defs : Obj ResourceDef) (out : OrbitOut)
    (hw : options.whitelist = some w) (hwr : w.resources = none)
    (hdefs : body.definitions = some defs)
    (hok : convertToOrbit body options = Except.ok out) :
    ∀ k, k ∈ objKeys out.models ↔
      ∃ t, t ∈ objKeys defs ∧ replaceColonFirst t = k := by
  obtain ⟨defs₁, hd₁, hf⟩ := convertToOrbit_ok_parts hok
  rw [hdefs] at hd₁
  obtain rfl : defs = defs₁ := Option.some.inj hd₁
  intro k
  rw [convertFold_keys defs [] out.models hf k]
  constructor
  · rintro (h₁ | ⟨t, d, hm, _, hr⟩)
    · cases h₁
    · exact ⟨t, mem_objKeys.mpr ⟨d, hm⟩, hr⟩
  · rintro ⟨t, ht, hr⟩
    obtain ⟨d, hd⟩ := mem_objKeys.mp ht
    exact Or.inr ⟨t, d, hd, whitelistExcludes_of_no_resources t hw hwr, hr⟩

/-- C10 witness: with a whitelist object but no `resources` list, both types
of `docTwo` are emitted. -/
theorem whitelist_no_resources_all_types_witness :
    ("node--article" ∈
      objKeys (⟨[("node--article", ⟨some [("title", ⟨some "string"⟩)], none⟩),
        ("node--page", ⟨some [("title", ⟨some "string"⟩)], none⟩)]⟩ : OrbitOut).models ↔
      ∃ t, t ∈ objKeys [("node:article", artDef), ("node:page", artDef)] ∧
        replaceColonFirst t = "node--article") := by
  have H := whitelist_no_resources_all_types docTwo optsWlEmpty ⟨none⟩
    [("node:article", artDef), ("node:page", artDef)]
    ⟨[("node--article", ⟨some [("title", ⟨some "string"⟩)], none⟩),
      ("node--page", ⟨some [("title", ⟨some "string"⟩)], none⟩)]⟩
    rfl rfl rfl rfl
  exact H "node--article"

/-- C3: a non-blacklisted relationship whose data reference has type `array`
is emitted as `hasMany` with the first declared value of the item target-type
enumeration; otherwise as `hasOne` with the first declared value of the
target-type enumeration. -/
theorem relationship_cardinality (schema : ResourceDef) (options : Options)
    (out : ModelOut) (props : ResourceProps) (rels : RelsObj)
    (rprops : Obj RelSchema) (prop : String) (rs : RelSchema)
    (relsOut : Obj RelOut) (pp : RelProps) (data : DataObj)
    (hok : serialize schema options = Except.ok out)
    (hp : schema.properties = some props) (hr : props.relationships = some rels)
    (hrp : rels.properties = some rprops) (hnd : (objKeys rprops).Nodup)
    (hmem : (prop, rs) ∈ rprops) (hbl : relBlacklisted options prop = false)
    (hout : out.relationships = some relsOut)
    (hpp : rs.properties = some pp) (hd : pp.data = some data) :
    (∀ items ip tobj v vs, data.type = some "array" → data.items = some items →
      items.properties = some ip → ip.type = some tobj →
      tobj.enum = some (v :: vs) →
      objGet relsOut prop = some ⟨"hasMany", some v⟩)
    ∧ (∀ dp tobj v vs, data.type ≠ some "array" → data.properties = some dp →
      dp.type = some tobj → tobj.enum = some (v :: vs) →
      objGet relsOut prop = some ⟨"hasOne", some v⟩) := by
  obtain ⟨props₁, hp₁, hA, hR⟩ := serialize_ok_parts hok
  rw [hp] at hp₁
  obtain rfl : props = props₁ := Option.some.inj hp₁
  rcases serializeRelStep_ok hR with ⟨hnone, _⟩ | ⟨rels₁, rprops₁, relsOut₁, hr₁, hrp₁, hss, hro⟩
  · rw [hr] at hnone
    cases hnone
  · rw [hr] at hr₁
    obtain rfl : rels = rels₁ := Option.some.inj hr₁
    rw [hrp] at hrp₁
    obtain rfl : rprops = rprops₁ := Option.some.inj hrp₁
    rw [hout] at hro
    obtain rfl : relsOut = relsOut₁ := Option.some.inj hro
    obtain ⟨r, hserRel, hget⟩ := serializeRels_get rprops [] relsOut prop rs hss hnd hmem hbl
    constructor
    · intro items ip tobj v vs ht hi hip hit he
      have hcomp : serializeRel rs = Except.ok ⟨"hasMany", (v :: vs).get? 0⟩ :=
        serializeRel_hasMany hpp hd ht hi hip hit he
      rw [hserRel] at hcomp
      rw [hget]
      exact congrArg some (Except.ok.inj hcomp)
    · intro dp tobj v vs ht hdp hit he
      have hcomp : serializeRel rs = Except.ok ⟨"hasOne", (v :: vs).get? 0⟩ :=
        serializeRel_hasOne hpp hd ht hdp hit he
      rw [hserRel] at hcomp
      rw [hget]
      exact congrArg some (Except.ok.inj hcomp)

/-- C3 witness: in `defWithRels`, `comments` (an array reference with item
enumeration `["comment"]`) is emitted as `hasMany comment`, and `author`
(a single reference with enumeration `["user"]`) as `hasOne user`. -/
theorem relationship_cardinality_witness :
    objGet relsOutBoth "comments" = some ⟨"hasMany", some "comment"⟩
    ∧ objGet relsOutBoth "author" = some ⟨"hasOne", some "user"⟩ := by
  have Hmany := relationship_cardinality defWithRels optsNone ⟨none, some relsOutBoth⟩
    ⟨none, some ⟨some [("author", relAuthor), ("comments", relComments)]⟩⟩
    ⟨some [("author", relAuthor), ("comments", relComments)]⟩
    [("author", relAuthor), ("comments", relComments)]
    "comments" relComments relsOutBoth
    ⟨some ⟨some "array", some ⟨some ⟨some ⟨some ["comment"]⟩⟩⟩, none⟩⟩
    ⟨some "array", some ⟨some ⟨some ⟨some ["comment"]⟩⟩⟩, none⟩
    rfl rfl rfl rfl (by decide) (by decide) rfl rfl rfl rfl
  have Hone := relationship_cardinality defWithRels optsNone ⟨none, some relsOutBoth⟩
    ⟨none, some ⟨some [("author", relAuthor), ("comments", relComments)]⟩⟩
    ⟨some [("author", relAuthor), ("comments", relComments)]⟩
    [("author", relAuthor), ("comments", relComments)]
    "author" relAuthor relsOutBoth
    ⟨some ⟨none, none, some ⟨some ⟨some ["user"]⟩⟩⟩⟩
    ⟨none, none, some ⟨some ⟨some ["user"]⟩⟩⟩
    rfl rfl rfl rfl (by decide) (by decide) rfl rfl rfl rfl
  refine ⟨?_, ?_⟩
  · exact Hmany.1 ⟨some ⟨some ⟨some ["comment"]⟩⟩⟩ ⟨some ⟨some ["comment"]⟩⟩
      ⟨some ["comment"]⟩ "comment" [] rfl rfl rfl rfl rfl
  · exact Hone.2 ⟨some ⟨some ["user"]⟩⟩ ⟨some ["user"]⟩ "user" []
      (by decide) rfl rfl rfl

/-- C4: a blacklisted attribute name appears in no resource's output
attribute map, whatever the resource type; a non-blacklisted attribute of a
definition is emitted under the same name as `{ type: dataType }`. -/
theorem attribute_blacklist (body : Document) (options : Options) (out : OrbitOut)
    (hok : convertToOrbit body options = Except.ok out) :
    (∀ a, attrBlacklisted options a = true →
      ∀ k m amap, (k, m) ∈ out.models → m.attributes = some amap →
        a ∉ objKeys amap)
    ∧ (∀ schema mout props attrs aprops prop s,
        serialize schema options = Except.ok mout →
        schema.properties = some props → props.attributes = some attrs →
        attrs.properties = some aprops → (prop, s) ∈ aprops →
        attrBlacklisted options prop = false → (objKeys aprops).Nodup →
        ∃ amap, mout.attributes = some amap ∧ objGet amap prop = some ⟨s.type⟩) := by
  constructor
  · intro a hbl k m amap hmem hattr
    obtain ⟨defs, hdefs, hf⟩ := convertToOrbit_ok_parts hok
    rcases convertFold_mem defs [] out.models k m hf hmem with h₁ | ⟨t, d, hm, hser⟩
    · cases h₁
    · obtain ⟨props, hp, hA, hR⟩ := serialize_ok_parts hser
      rcases serializeAttrStep_ok hA with ⟨_, hnone⟩ | ⟨attrs, aprops, ha, hap, hsome⟩
      · rw [hattr] at hnone
        cases hnone
      · rw [hattr] at hsome
        obtain rfl : amap = serializeAttrs options [] aprops := Option.some.inj hsome
        exact serializeAttrs_not_mem aprops [] a hbl (List.not_mem_nil a)
  · intro schema mout props attrs aprops prop s hser hp ha hap hmem hbl hnd
    obtain ⟨props₁, hp₁, hA, hR⟩ := serialize_ok_parts hser
    rw [hp] at hp₁
    obtain rfl : props = props₁ := Option.some.inj hp₁
    rcases serializeAttrStep_ok hA with ⟨hnone, _⟩ | ⟨attrs₁, aprops₁, ha₁, hap₁, hsome⟩
    · rw [ha] at hnone
      cases hnone
    · rw [ha] at ha₁
      obtain rfl : attrs = attrs₁ := Option.some.inj ha₁
      rw [hap] at hap₁
      obtain rfl : aprops = aprops₁ := Option.some.inj hap₁
      exact ⟨serializeAttrs options [] aprops, hsome,
        serializeAttrs_get aprops [] prop s hnd hmem hbl⟩

/-- C4 witness: with `title` blacklisted, `doc1`'s output attribute map is
empty (no `title` key); a non-blacklisted attribute `body` is emitted as
`{ type: "string" }` under the same name. -/
theorem attribute_blacklist_witness :
    ("title" ∉ objKeys ([] : Obj AttrOut))
    ∧ ∃ amap, (⟨some [("body", ⟨some "string"⟩)], none⟩ : ModelOut).attributes = some amap
        ∧ objGet amap "body" = some ⟨some "string"⟩ := by
  have H := attribute_blacklist doc1 optsBlTitle outArtBlTitle rfl
  refine ⟨?_, ?_⟩
  · exact H.1 "title" rfl "node--article" ⟨some [], none⟩ [] (by decide) rfl
  · exact H.2 bodyAttrDef ⟨some [("body", ⟨some "string"⟩)], none⟩
      ⟨some ⟨some [("body", ⟨some "string"⟩)]⟩, none⟩
      ⟨some [("body", ⟨some "string"⟩)]⟩ [("body", ⟨some "string"⟩)]
      "body" ⟨some "string"⟩ rfl rfl rfl rfl (by decide) rfl (by decide)

/-- C5: a blacklisted relationship name appears in no resource's output
relationship map, whatever the resource type. -/
theorem relationship_blacklist (body : Document) (options : Options)
    (out : OrbitOut) (hok : convertToOrbit body options = Except.ok out) :
    ∀ r, relBlacklisted options r = true →
      ∀ k m rmap, (k, m) ∈ out.models → m.relationships = some rmap →
        r ∉ objKeys rmap := by
  intro r hbl k m rmap hmem hrel
  obtain ⟨defs, hdefs, hf⟩ := convertToOrbit_ok_parts hok
  rcases convertFold_mem defs [] out.models k m hf hmem with h₁ | ⟨t, d, hm, hser⟩
  · cases h₁
  · obtain ⟨props, hp, hA, hR⟩ := serialize_ok_parts hser
    rcases serializeRelStep_ok hR with ⟨_, hnone⟩ | ⟨rels, rprops, relsOut, hr, hrp, hss, hsome⟩
    · rw [hrel] at hnone
      cases hnone
    · rw [hrel] at hsome
      obtain rfl : rmap = relsOut := Option.some.inj hsome
      exact serializeRels_not_mem rprops [] rmap r hss hbl (List.not_mem_nil r)

/-- C5 witness: with the relationship `comments` blacklisted, the resource
`t` of `docRels` is emitted with only `author` — no `comments` key. -/
theorem relationship_blacklist_witness :
    "comments" ∉ objKeys [("author", (⟨"hasOne", some "user"⟩ : RelOut))] := by
  have H := relationship_blacklist docRels optsBlRel
    ⟨[("t", ⟨none, some [("author", ⟨"hasOne", some "user"⟩)]⟩)]⟩ rfl
  exact H "comments" rfl "t" ⟨none, some [("author", ⟨"hasOne", some "user"⟩)]⟩
    [("author", ⟨"hasOne", some "user"⟩)] (by decide) rfl

/-- C6 counterexample: a relationship with a present-but-EMPTY target-type
enumeration does NOT make the transformation fail: `enum[0]` on an empty JS
array is `undefined`, so the relationship is emitted with an undefined
`model`. -/
theorem empty_enum_no_failure_cex :
    convertToOrbit docEmptyEnum optsNone = Except.ok outEmptyEnum
    ∧ (convertToOrbit docEmptyEnum optsNone).isOk = true
    ∧ objGet outEmptyEnum.models "t" =
        some ⟨none, some [("author", ⟨"hasOne", none⟩)]⟩ :=
  ⟨rfl, rfl, rfl⟩

/-- C6 (amended): a relationship descriptor whose target-type enumeration is
MISSING makes `serialize` fail with a `TypeError` (in both the collection and
the single case); an EMPTY enumeration does not fail — the relationship is
emitted with an undefined (`none`) model. -/
theorem enum_missing_vs_empty (schema : ResourceDef) (options : Options)
    (props : ResourceProps) (rels : RelsObj) (rprops : Obj RelSchema)
    (prop : String) (rs : RelSchema) (pp : RelProps) (data : DataObj)
    (hp : schema.properties = some props) (hr : props.relationships = some rels)
    (hrp : rels.properties = some rprops)
    (hmem : (prop, rs) ∈ rprops) (hbl : relBlacklisted options prop = false)
    (hpp : rs.properties = some pp) (hd : pp.data = some data) :
    (∀ items ip tobj, data.type = some "array" → data.items = some items →
      items.properties = some ip → ip.type = some tobj → tobj.enum = none →
      ∃ e, serialize schema options = Except.error e)
    ∧ (∀ dp tobj, data.type ≠ some "array" → data.properties = some dp →
      dp.type = some tobj → tobj.enum = none →
      ∃ e, serialize schema options = Except.error e)
    ∧ (∀ out relsOut, serialize schema options = Except.ok out →
      out.relationships = some relsOut → (objKeys rprops).Nodup →
      (∀ items ip tobj, data.type = some "array" → data.items = some items →
        items.properties = some ip → ip.type = some tobj → tobj.enum = some [] →
        objGet relsOut prop = some ⟨"hasMany", none⟩)
      ∧ (∀ dp tobj, data.type ≠ some "array" → data.properties = some dp →
        dp.type = some tobj → tobj.enum = some [] →
        objGet relsOut prop = some ⟨"hasOne", none⟩)) := by
  refine ⟨?_, ?_, ?_⟩
  · intro items ip tobj ht hi hip hit he
    obtain ⟨e₁, hre⟩ := serializeRels_error rprops prop rs "TypeError" hmem hbl
      (serializeRel_error_hasMany hpp hd ht hi hip hit he) []
    exact serialize_error_of_relsError hp hr hrp hre
  · intro dp tobj ht hdp hit he
    obtain ⟨e₁, hre⟩ := serializeRels_error rprops prop rs "TypeError" hmem hbl
      (serializeRel_error_hasOne hpp hd ht hdp hit he) []
    exact serialize_error_of_relsError hp hr hrp hre
  · intro out relsOut hok hout hnd
    obtain ⟨props₁, hp₁, hA, hR⟩ := serialize_ok_parts hok
    rw [hp] at hp₁
    obtain rfl : props = props₁ := Option.some.inj hp₁
    rcases serializeRelStep_ok hR with ⟨hnone, _⟩ | ⟨rels₁, rprops₁, relsOut₁, hr₁, hrp₁, hss, hro⟩
    · rw [hr] at hnone
      cases hnone
    · rw [hr] at hr₁
      obtain rfl : rels = rels₁ := Option.some.inj hr₁
      rw [hrp] at hrp₁
      obtain rfl : rprops = rprops₁ := Option.some.inj hrp₁
      rw [hout] at hro
      obtain rfl : relsOut = relsOut₁ := Option.some.inj hro
      obtain ⟨r, hserRel, hget⟩ := serializeRels_get rprops [] relsOut prop rs hss hnd hmem hbl
      constructor
      · intro items ip tobj ht hi hip hit he
        have hcomp : serializeRel rs = Except.ok ⟨"hasMany", ([] : List String).get? 0⟩ :=
          serializeRel_hasMany hpp hd ht hi hip hit he
        rw [hserRel] at hcomp
        rw [hget]
        exact congrArg some (Except.ok.inj hcomp)
      · intro dp tobj ht hdp hit he
        have hcomp : serializeRel rs = Except.ok ⟨"hasOne", ([] : List String).get? 0⟩ :=
          serializeRel_hasOne hpp hd ht hdp hit he
        rw [hserRel] at hcomp
        rw [hget]
        exact congrArg some (Except.ok.inj hcomp)

/-- C6 witness: `defNoEnum` (missing enumeration) makes `serialize` fail;
`defEmptyEnum` (empty enumeration) yields `author ↦ hasOne, model
undefined`. -/
theorem enum_missing_vs_empty_witness :
    (∃ e, serialize defNoEnum optsNone = Except.error e)
    ∧ objGet [("author", (⟨"hasOne", none⟩ : RelOut))] "author" =
        some ⟨"hasOne", none⟩ := by
  have Hmiss := enum_missing_vs_empty defNoEnum optsNone
    ⟨none, some ⟨some [("author", relNoEnum)]⟩⟩
    ⟨some [("author", relNoEnum)]⟩ [("author", relNoEnum)]
    "author" relNoEnum ⟨some ⟨none, none, some ⟨some ⟨none⟩⟩⟩⟩
    ⟨none, none, some ⟨some ⟨none⟩⟩⟩
    rfl rfl rfl (by decide) rfl rfl rfl
  have Hempty := enum_missing_vs_empty defEmptyEnum optsNone
    ⟨none, some ⟨some [("author", relEmptyEnum)]⟩⟩
    ⟨some [("author", relEmptyEnum)]⟩ [("author", relEmptyEnum)]
    "author" relEmptyEnum ⟨some ⟨none, none, some ⟨some ⟨some []⟩⟩⟩⟩
    ⟨none, none, some ⟨some ⟨some []⟩⟩⟩
    rfl rfl rfl (by decide) rfl rfl rfl
  refine ⟨?_, ?_⟩
  · exact Hmiss.2.1 ⟨some ⟨none⟩⟩ ⟨none⟩ (by decide) rfl rfl rfl
  · exact (Hempty.2.2 ⟨none, some [("author", ⟨"hasOne", none⟩)]⟩
      [("author", ⟨"hasOne", none⟩)] rfl rfl (by decide)).2
      ⟨some ⟨some []⟩⟩ ⟨some []⟩ (by decide) rfl rfl rfl

/-- C7: the output has an attributes sub-map iff the input definition has
one, and likewise for relationships; in particular `doc1` with `title`
blacklisted yields a PRESENT and EMPTY attributes sub-map. -/
theorem submap_presence :
    (∀ schema options out props, serialize schema options = Except.ok out →
      schema.properties = some props →
      out.attributes.isSome = props.attributes.isSome
      ∧ out.relationships.isSome = props.relationships.isSome)
    ∧ convertToOrbit doc1 optsBlTitle = Except.ok outArtBlTitle := by
  constructor
  · intro schema options out props hok hp
    obtain ⟨props₁, hp₁, hA, hR⟩ := serialize_ok_parts hok
    rw [hp] at hp₁
    obtain rfl : props = props₁ := Option.some.inj hp₁
    constructor
    · rcases serializeAttrStep_ok hA with ⟨h₁, h₂⟩ | ⟨attrs, aprops, h₁, h₂, h₃⟩
      · rw [h₁, h₂]
        rfl
      · rw [h₁, h₃]
        rfl
    · rcases serializeRelStep_ok hR with ⟨h₁, h₂⟩ | ⟨rels, rprops, relsOut, h₁, h₂, h₃, h₄⟩
      · rw [h₁, h₂]
        rfl
      · rw [h₁, h₄]
        rfl
  · rfl

/-- C7 witness: `artDef` serialized under the `title` blacklist has a present
attributes sub-map (matching the input) and no relationships sub-map. -/
theorem submap_presence_witness :
    (⟨some [], none⟩ : ModelOut).attributes.isSome =
      (⟨some ⟨some [("title", ⟨some "string"⟩)]⟩, none⟩ : ResourceProps).attributes.isSome
    ∧ (⟨some [], none⟩ : ModelOut).relationships.isSome =
      (⟨some ⟨some [("title", ⟨some "string"⟩)]⟩, none⟩ : ResourceProps).relationships.isSome :=
  submap_presence.1 artDef optsBlTitle ⟨some [], none⟩
    ⟨some ⟨some [("title", ⟨some "string"⟩)]⟩, none⟩ rfl rfl

/-- C8: the transformation is a pure function of the input document and the
filter configuration — in this embedding it is a Lean function, so two
invocations on equal inputs give equal outputs and there is no state to
produce a side effect. -/
theorem convert_deterministic (body₁ body₂ : Document) (options₁ options₂ : Options)
    (hb : body₁ = body₂) (ho : options₁ = options₂) :
    convertToOrbit body₁ options₁ = convertToOrbit body₂ options₂ := by
  rw [hb, ho]

/-- C8 witness: two invocations on `doc1` with no filters agree. -/
theorem convert_deterministic_witness :
    convertToOrbit doc1 optsNone = convertToOrbit doc1 optsNone :=
  convert_deterministic doc1 doc1 optsNone optsNone rfl rfl

/-- C9 counterexample: when the credential step fails, the promise returned
by `generate` stays PENDING — it is not rejected with the collaborator's
error, contradicting the claim that the error propagates to the caller. -/
theorem credential_error_not_propagated_cex :
    generate (POutcome.rejected "credential-error") (POutcome.resolved doc1) optsNone
      = POutcome.pending
    ∧ generate (POutcome.rejected "credential-error") (POutcome.resolved doc1) optsNone
      ≠ POutcome.rejected "credential-error" :=
  ⟨rfl, by decide⟩

/-- C9 (amended): a failure of the credential step leaves the promise
returned by `generate` forever pending, whatever the fetch outcome and the
configuration: the executor never calls `reject` and the `getToken()` chain
has no rejection handler, so the collaborator's error becomes an unhandled
rejection instead of propagating to the caller. -/
theorem credential_error_pending (e : String)
    (fetchResult : POutcome String Document) (options : Options) :
    generate (POutcome.rejected e) fetchResult options = POutcome.pending := rfl

end OrbitSchema
